import Mathlib

/-!
Verification development for the YouTube Music extension's classification core.

The JavaScript sources are shallowly embedded: strings become `List Char`,
each regex replacement in `src/utils/normalization.js` becomes an explicit
scanner implementing the same (backtracking) match semantics, the storage,
cache, matcher and evaluator modules become pure functions over explicit
state, and the asynchronous resolution orchestration becomes an
outcome-indexed effect function.
-/

/-- Strings of the embedded program: JavaScript strings as lists of characters. -/
abbrev Str := List Char

/-- Convert a Lean string literal to the embedded string type. -/
def str (s : String) : Str := s.data

/-- JavaScript `\s` for the characters appearing in this model
(space, tab, newline, carriage return, vertical tab, form feed). -/
def isWs (c : Char) : Bool :=
  c = ' ' || c = '\t' || c = '\n' || c = '\x0d' || c = '\x0b' || c = '\x0c'

/-- JavaScript `\w`: ASCII letters, digits and underscore. -/
def isWordChar (c : Char) : Bool :=
  ('a' ≤ c && c ≤ 'z') || ('A' ≤ c && c ≤ 'Z') || ('0' ≤ c && c ≤ '9') || c = '_'

/-- Characters JavaScript's `.` (without the `s` flag) does not match,
restricted to the code points this model uses: `\n` and `\r`. -/
def isLineTerm (c : Char) : Bool :=
  c = '\n' || c = '\x0d'

/-- `String.prototype.toLowerCase` on one character, for the ASCII and basic
Cyrillic ranges this program works with. -/
def toLowerChar (c : Char) : Char :=
  if 'A' ≤ c ∧ c ≤ 'Z' then Char.ofNat (c.toNat + 32)
  else if 'А' ≤ c ∧ c ≤ 'Я' then Char.ofNat (c.toNat + 32)
  else if 'Ѐ' ≤ c ∧ c ≤ 'Џ' then Char.ofNat (c.toNat + 80)
  else c

/-- `String.prototype.toLowerCase` on an embedded string. -/
def toLowerStr (s : Str) : Str := s.map toLowerChar

/-- `String.prototype.trim`: strip whitespace from both ends. -/
def trimStr (s : Str) : Str :=
  ((((s.dropWhile isWs).reverse).dropWhile isWs).reverse)

/-- Does `l` start with the pattern `p` (both embedded strings)? -/
def startsWithStr : Str → Str → Bool
  | _, [] => true
  | [], _ :: _ => false
  | c :: cs, p :: ps => c = p && startsWithStr cs ps

/-- If `l` starts with `p`, return the remainder of `l` after `p`. -/
def dropPfx : Str → Str → Option Str
  | [], l => some l
  | _ :: _, [] => none
  | p :: ps, c :: cs => if c = p then dropPfx ps cs else none

/-- Contiguous-substring test: does `needle` occur inside `hay`? -/
def hasSub : Str → Str → Bool
  | [], needle => startsWithStr [] needle
  | hay@(_ :: t), needle => startsWithStr hay needle || hasSub t needle

/-- `Array.prototype.join` with a separator. -/
def joinSep (sep : Str) : List Str → Str
  | [] => []
  | [x] => x
  | x :: y :: xs => x ++ sep ++ joinSep sep (y :: xs)

/-- Index of the first character satisfying `p`. -/
def idxOfP (p : Char → Bool) : Str → Option Nat
  | [] => none
  | c :: rest => if p c then some 0 else (idxOfP p rest).map (· + 1)

/-- All characters are admissible for `.*$` (no line terminators). -/
def tailOk (l : Str) : Bool := l.all (fun c => !isLineTerm c)

/-! ## `normalizeArtist` (src/utils/normalization.js lines 26–65)

Each `String.replace` with a regex becomes a scanner with the same
leftmost-match, ordered-alternation, backtracking semantics. -/

/-- Tail of the artist paren-feat regex after the marker: `\.?\s+[^)]+\)`.
With backtracking this matches exactly when (after an optional `.`) the next
character is whitespace and the first `)` is at index ≥ 2; returns the
remainder after the `)`. -/
def parenFeatTail (r : Str) : Option Str :=
  let r' := match r with
    | '.' :: r2 => r2
    | _ => r
  match r' with
  | c :: _ =>
    if isWs c then
      match idxOfP (fun d => d = ')') r' with
      | some k => if 2 ≤ k then some (r'.drop (k + 1)) else none
      | none => none
    else none
  | [] => none

/-- Match of `/\((?:feat|ft|featuring)\.?\s+[^)]+\)/` at the head of `l`:
returns the remainder after the match. Alternatives are tried in source
order with full continuations, like the JS engine. -/
def matchFeatParen (l : Str) : Option Str :=
  match l with
  | '(' :: rest =>
    (match dropPfx (str "feat") rest with
     | some r => parenFeatTail r
     | none => none) <|>
    (match dropPfx (str "ft") rest with
     | some r => parenFeatTail r
     | none => none) <|>
    (match dropPfx (str "featuring") rest with
     | some r => parenFeatTail r
     | none => none)
  | _ => none

/-- Global replace of the paren-feat regex by the empty string (fuelled
scanner; every match consumes at least one character). -/
def replaceFeatParen : Nat → Str → Str
  | 0, l => l
  | _ + 1, [] => []
  | f + 1, c :: rest =>
    match matchFeatParen (c :: rest) with
    | some rem => replaceFeatParen f rem
    | none => c :: replaceFeatParen f rest

/-- Step 1 of `normalizeArtist`:
`normalized.replace(/\((?:feat|ft|featuring)\.?\s+[^)]+\)/g, '')`. -/
def artistStep1 (l : Str) : Str := replaceFeatParen l.length l

/-- Word-boundary test after a matched group whose last character is `last`,
given the rest of the input. -/
def boundaryAfter (last : Char) : Str → Bool
  | [] => isWordChar last
  | c :: _ => isWordChar last ≠ isWordChar c

/-- Does `/(feat\.?|ft\.?|featuring)\b.*$/` match at the head of `l`
(the leading `\b` is checked by the caller)? For `feat`/`ft`, a following
`.` makes the trailing `\b` hold between the marker and the dot after
backtracking, so the match succeeds exactly when the tail after the dot is
free of line terminators. -/
def matchTrailingFeatAt (l : Str) : Bool :=
  (match dropPfx (str "feat") l with
   | some ('.' :: r2) => tailOk r2
   | some r => boundaryAfter 't' r && tailOk r
   | none => false) ||
  (match dropPfx (str "ft") l with
   | some ('.' :: r2) => tailOk r2
   | some r => boundaryAfter 't' r && tailOk r
   | none => false) ||
  (match dropPfx (str "featuring") l with
   | some r => boundaryAfter 'g' r && tailOk r
   | none => false)

/-- Scanner for step 2: cut the string at the leftmost position where the
marker regex matches; `prevWord` tracks whether the previous character is a
word character (for the leading `\b`; all markers start with the word
character `f`). -/
def trailingFeatGo (prevWord : Bool) : Str → Str
  | [] => []
  | c :: rest =>
    if !prevWord && matchTrailingFeatAt (c :: rest) then []
    else c :: trailingFeatGo (isWordChar c) rest

/-- Step 2 of `normalizeArtist`:
`normalized.replace(/\b(feat\.?|ft\.?|featuring)\b.*$/g, '')`. -/
def artistStep2 (l : Str) : Str := trailingFeatGo false l

/-- Match of `/\s+(&|and)\s+/` at the head of `l`: returns the remainder
after the match. The conjunction token must start at the end of the leading
whitespace run since neither `&` nor `a` is whitespace. -/
def matchConj (l : Str) : Option Str :=
  let w1 := l.takeWhile isWs
  let r1 := l.dropWhile isWs
  if w1 = [] then none
  else
    let afterTok : Str → Option Str := fun r2 =>
      let w2 := r2.takeWhile isWs
      if w2 = [] then none else some (r2.dropWhile isWs)
    match r1 with
    | '&' :: r2 => afterTok r2
    | 'a' :: 'n' :: 'd' :: r2 => afterTok r2
    | _ => none

/-- Global replace of the conjunction regex by a single space (fuelled
scanner; every match consumes at least three characters). -/
def replaceConj : Nat → Str → Str
  | 0, l => l
  | _ + 1, [] => []
  | f + 1, c :: rest =>
    match matchConj (c :: rest) with
    | some rem => ' ' :: replaceConj f rem
    | none => c :: replaceConj f rest

/-- Step 3 of `normalizeArtist`: `normalized.replace(/\s+(&|and)\s+/g, ' ')`. -/
def artistStep3 (l : Str) : Str := replaceConj l.length l

/-- Collapse every whitespace run to a single space
(`.replace(/\s+/g, ' ')`). -/
def collapseWsGo (prevWs : Bool) : Str → Str
  | [] => []
  | c :: rest =>
    if isWs c then
      if prevWs then collapseWsGo true rest
      else ' ' :: collapseWsGo true rest
    else c :: collapseWsGo false rest

/-- Final step shared by `normalizeArtist` and `normalizeTitle`:
`.replace(/\s+/g, ' ').trim()`. -/
def squeezeTrim (l : Str) : Str := trimStr (collapseWsGo false l)

/-- `normalizeArtist` (src/utils/normalization.js): lowercase, remove
parenthesized feat clauses, cut at a trailing feat marker, collapse
`&`/`and` conjunctions to a space, collapse whitespace and trim. -/
def normalizeArtist (s : Str) : Str :=
  squeezeTrim (artistStep3 (artistStep2 (artistStep1 (toLowerStr s))))

/-! ## `normalizeTitle` (src/utils/normalization.js lines 75–87) -/

/-- Tail of the title bracket-feat regex after the marker:
`\.?\s+[^)\]]+[\)\]]`. -/
def bracketFeatTail (r : Str) : Option Str :=
  let r' := match r with
    | '.' :: r2 => r2
    | _ => r
  match r' with
  | c :: _ =>
    if isWs c then
      match idxOfP (fun d => d = ')' || d = ']') r' with
      | some k => if 2 ≤ k then some (r'.drop (k + 1)) else none
      | none => none
    else none
  | [] => none

/-- Match of `/[\(\[]\s*(?:feat|ft|featuring)\.?\s+[^)\]]+[\)\]]/` at the
head of `l`: returns the remainder after the match. After the opening
bracket, `\s*` greedily skips whitespace; the marker must start at the end
of that run. -/
def matchFeatBracket (l : Str) : Option Str :=
  match l with
  | c :: rest =>
    if c = '(' || c = '[' then
      let r1 := rest.dropWhile isWs
      (match dropPfx (str "feat") r1 with
       | some r => bracketFeatTail r
       | none => none) <|>
      (match dropPfx (str "ft") r1 with
       | some r => bracketFeatTail r
       | none => none) <|>
      (match dropPfx (str "featuring") r1 with
       | some r => bracketFeatTail r
       | none => none)
    else none
  | [] => none

/-- Global replace of the bracket-feat regex by the empty string. -/
def replaceFeatBracket : Nat → Str → Str
  | 0, l => l
  | _ + 1, [] => []
  | f + 1, c :: rest =>
    match matchFeatBracket (c :: rest) with
    | some rem => replaceFeatBracket f rem
    | none => c :: replaceFeatBracket f rest

/-- Title step 1:
`normalized.replace(/[\(\[]\s*(?:feat|ft|featuring)\.?\s+[^)\]]+[\)\]]/g, '')`. -/
def titleStep1 (l : Str) : Str := replaceFeatBracket l.length l

/-- Does `/\s+(?:feat|ft|featuring)\.?\s+.*$/` match at the head of `l`?
The marker must start at the end of the leading whitespace run; after the
optional dot a second whitespace run is required, and the characters after
that run must be free of line terminators (the run itself may contain
them, since `\s+` absorbs them before `.*$`). -/
def matchTrailingFeatTitleAt (l : Str) : Bool :=
  let w1 := l.takeWhile isWs
  let r1 := l.dropWhile isWs
  if w1 = [] then false
  else
    let tAlt : Str → Bool := fun m =>
      match dropPfx m r1 with
      | some r =>
        let r' := match r with
          | '.' :: r2 => r2
          | _ => r
        (match r' with
         | c :: _ => isWs c && tailOk (r'.dropWhile isWs)
         | [] => false)
      | none => false
    tAlt (str "feat") || tAlt (str "ft") || tAlt (str "featuring")

/-- Scanner for the trailing title-feat regex: cut at the leftmost match. -/
def trailingFeatTitleGo : Str → Str
  | [] => []
  | c :: rest =>
    if matchTrailingFeatTitleAt (c :: rest) then []
    else c :: trailingFeatTitleGo rest

/-- Title step 2: `normalized.replace(/\s+(?:feat|ft|featuring)\.?\s+.*$/g, '')`. -/
def titleStep2 (l : Str) : Str := trailingFeatTitleGo l

/-- `normalizeTitle` (src/utils/normalization.js). -/
def normalizeTitle (s : Str) : Str :=
  squeezeTrim (titleStep2 (titleStep1 (toLowerStr s)))

/-! ## Components referenced by the evaluator but absent from the sources -/

/-- Split an embedded string on the separator characters `,` and `&`. -/
def splitOnSepChars : Str → Str → List Str
  | [], acc => [acc.reverse]
  | c :: rest, acc =>
    if c = ',' || c = '&' then acc.reverse :: splitOnSepChars rest []
    else splitOnSepChars rest (c :: acc)

/-- Modelled from the spec: `NormalizationUtils.splitArtists` is called by
the evaluator and the orchestration but its definition is not among the
provided sources. Per §4.1 it splits a raw multi-artist credit string
(e.g. "A & B", "A, B") into individually normalized artist names, order
preserved; empty parts are dropped. -/
def splitArtists (raw : Str) : List Str :=
  ((splitOnSepChars raw []).map normalizeArtist).filter (· ≠ [])

/-- Modelled from the spec: `NormalizationUtils.isUkrainianString` is called
by the evaluator but its definition is not among the provided sources. Per
§4.1 it reports whether the string contains characters unique to the
Ukrainian alphabet and absent from Russian ("і", "ї", "є", "ґ", and their
capitals). -/
def isUkrainianString (s : Str) : Bool :=
  s.any (fun c =>
    c = 'і' || c = 'ї' || c = 'є' || c = 'ґ' ||
    c = 'І' || c = 'Ї' || c = 'Є' || c = 'Ґ')

/-! ## Data model (storage schema of src/background/storage.js and the
orchestration's `newArtist` records) -/

/-- A JavaScript value that is either a boolean, a string, or absent — the
`isRussian` field is compared against both `true` and `'true'` by the
evaluator. -/
inductive RVal
  | b (x : Bool)
  | s (x : Str)
  | undef
deriving DecidableEq

/-- An artist record as stored in the `artists` collection. `aliases` is
`none` when the field is absent from the record. -/
structure Artist where
  id : Str
  name : Str
  country : Option Str
  isRussian : RVal
  aliases : Option (List Str)
  lastPlayed : Nat
deriving DecidableEq

/-- A song record as stored in the `songs` collection. -/
structure Song where
  id : Str
  artistId : Str
  title : Str
deriving DecidableEq

/-! ## SongMatcher (src/unnamed/part_002, matcher module) -/

/-- `checkArtistMatch` (matcher module lines 214–241): find the first stored
artist whose normalized `name` equals the normalized input. `none` stands
for `{match: false}`. Aliases are not consulted by this code. -/
def checkArtistMatch (artists : List Artist) (artist : Str) : Option Artist :=
  if artist = [] then none
  else if artists = [] then none
  else artists.find? (fun a => normalizeArtist a.name == normalizeArtist artist)

/-- `checkSongMatch` (matcher module lines 129–206): a provisional search by
normalized title, then an exact search requiring the song's artist record
(looked up by `artistId`) to match the normalized input artist. Returns the
`match` boolean the evaluator consumes. -/
def checkSongMatch (songs : List Song) (artists : List Artist)
    (title artist : Str) : Bool :=
  if title = [] ∨ artist = [] then false
  else if songs = [] then false
  else
    match songs.find? (fun s => normalizeTitle s.title == normalizeTitle title) with
    | none => false
    | some _ =>
      (songs.find? (fun s =>
        (normalizeTitle s.title == normalizeTitle title) &&
        (match artists.find? (fun a => a.id == s.artistId) with
         | none => false
         | some a => normalizeArtist a.name == normalizeArtist artist))).isSome

/-! ## StorageManager.addArtist (src/background/storage.js lines 75–116) -/

/-- One alias push of `addArtist`'s merge loop:
`if (!existingArtist.aliases.includes(alias)) existingArtist.aliases.push(alias)`. -/
def pushNew (acc : List Str) (al : Str) : List Str :=
  if al ∈ acc then acc else acc ++ [al]

/-- Alias merge of `addArtist` on the first name-matching record: each
incoming alias is appended unless already present; if nothing was appended
the stored record is left exactly as it was (the `updated` flag guards the
save). Incoming records without an alias array merge nothing. -/
def mergeAliases (existing incoming : Artist) : Artist :=
  match incoming.aliases with
  | none => existing
  | some newAl =>
    let curr := existing.aliases.getD []
    let folded := newAl.foldl pushNew curr
    if folded = curr then existing else { existing with aliases := some folded }

namespace StorageManager

/-- `StorageManager.addArtist`: find the first record with the same
normalized canonical name; merge aliases into it, otherwise push the new
record at the end. -/
def addArtist (artist : Artist) : List Artist → List Artist
  | [] => [artist]
  | a :: rest =>
    if normalizeArtist a.name = normalizeArtist artist.name then
      mergeAliases a artist :: rest
    else a :: addArtist artist rest

end StorageManager

/-! ## SearchCache (src/unnamed/part_001, search-cache module) -/

/-- The three entry states written by the cache module. -/
inductive CState
  | pending
  | resolved
  | failed
deriving DecidableEq

/-- A resolver result as cached and as stored in artist records
(the object the Mistral adapter returns). -/
structure SearchResult where
  canonicalName : Str
  country : Option Str
  isRussian : RVal
  isSongUkrainian : Bool
deriving DecidableEq

/-- A cache entry: `data` is present on resolved entries (`{results: [...]}`),
`error` on failed ones. -/
structure CacheEntry where
  state : CState
  timestamp : Nat
  data : Option (List SearchResult)
  error : Option Str
deriving DecidableEq

/-- The durable cache map: normalized query string to entry. -/
def Cache := Str → Option CacheEntry

/-- `StorageManager.updateSearchCacheEntry`: overwrite one key. -/
def updateEntry (q : Str) (e : CacheEntry) (c : Cache) : Cache :=
  fun q' => if q' = q then some e else c q'

/-- `CACHE_TTL = 24 * 60 * 60 * 1000` (milliseconds). -/
def CACHE_TTL : Nat := 24 * 60 * 60 * 1000
/-- `PENDING_TIMEOUT = 60 * 1000` (milliseconds). -/
def PENDING_TIMEOUT : Nat := 60 * 1000

namespace SearchCache

/-- `SearchCache.get`: timed-out pending entries are surfaced as an
ephemeral failed view (storage is not written), expired resolved entries as
absent, everything else as stored. `now` is `Date.now()`. -/
def get (now : Nat) (cache : Cache) (query : Str) : Option CacheEntry :=
  if query = [] then none
  else
    match cache query with
    | none => none
    | some entry =>
      match entry.state with
      | CState.pending =>
        if now - entry.timestamp > PENDING_TIMEOUT then
          some { state := CState.failed, timestamp := entry.timestamp,
                 data := none, error := some (str "Search timed out") }
        else some entry
      | CState.resolved =>
        if now - entry.timestamp > CACHE_TTL then none else some entry
      | CState.failed => some entry

/-- `SearchCache.setPending`: returns the boolean result and the cache after
the call. A live pending or unexpired resolved entry (as seen through
`get`) refuses; otherwise a fresh pending entry stamped `now` is written. -/
def setPending (now : Nat) (cache : Cache) (query : Str) : Bool × Cache :=
  if query = [] then (false, cache)
  else
    match get now cache query with
    | some existing =>
      if existing.state = CState.resolved then (false, cache)
      else if existing.state = CState.pending then (false, cache)
      else (true, updateEntry query
        { state := CState.pending, timestamp := now, data := none, error := none } cache)
    | none => (true, updateEntry query
        { state := CState.pending, timestamp := now, data := none, error := none } cache)

/-- `SearchCache.setResolved`. -/
def setResolved (now : Nat) (cache : Cache) (query : Str)
    (data : List SearchResult) : Cache :=
  if query = [] then cache
  else updateEntry query
    { state := CState.resolved, timestamp := now, data := some data, error := none } cache

/-- `SearchCache.setFailed`. -/
def setFailed (now : Nat) (cache : Cache) (query : Str) (error : Str) : Cache :=
  if query = [] then cache
  else updateEntry query
    { state := CState.failed, timestamp := now, data := none, error := some error } cache

end SearchCache

/-! ## Evaluator (src/background/evaluator.js) -/

/-- The decision object `evaluateSong` returns (the `details` payload is
not modelled; `blockMode` and `artistsToSearch` are `none` when the
corresponding fields are absent). -/
structure EvalResult where
  shouldBlock : Bool
  blockMode : Option Str
  reason : Str
  step : Str
  artistsToSearch : Option (List Str)
deriving DecidableEq

/-- The flagged-origin test of evaluator.js lines 72–76:
`country === 'RU' || country.toLowerCase() === 'russia' || isRussian === true
|| isRussian === 'true'` (an empty-string country is falsy and skipped). -/
def artistFlagged (a : Artist) : Bool :=
  (a.country == some (str "RU")) ||
  (match a.country with
   | some c => !(c == []) && (toLowerStr c == str "russia")
   | none => false) ||
  (a.isRussian == RVal.b true) || (a.isRussian == RVal.s (str "true"))

/-- The per-artist partition loop of evaluator.js lines 63–88: blocked,
safe and unknown, each in encounter order. -/
def partitionArtists (artists : List Artist) :
    List Str → List Artist × List Artist × List Str
  | [] => ([], [], [])
  | n :: rest =>
    let (b, s, u) := partitionArtists artists rest
    match checkArtistMatch artists n with
    | some a => if artistFlagged a then (a :: b, s, u) else (b, a :: s, u)
    | none => (b, s, n :: u)

/-- The artist list the evaluator iterates over: `splitArtists`, falling
back to the whole normalized string when the split yields nothing. -/
def effectiveArtists (artistString : Str) : List Str :=
  let l := splitArtists artistString
  if l = [] then [normalizeArtist artistString] else l

namespace Evaluator

/-- `Evaluator.evaluateSong` (evaluator.js lines 29–128). `knownUkr` is
`songDetails.isKnownUkrainian`. -/
def evaluateSong (songs : List Song) (artists : List Artist)
    (title artistString : Str) (knownUkr : Bool) : EvalResult :=
  if title = [] ∨ artistString = [] then
    { shouldBlock := false, blockMode := none, reason := str "Invalid input",
      step := str "Validation", artistsToSearch := none }
  else if checkSongMatch songs artists title artistString then
    { shouldBlock := false, blockMode := none,
      reason := str "Song found in database", step := str "SONG",
      artistsToSearch := none }
  else if isUkrainianString title || knownUkr then
    { shouldBlock := false, blockMode := none,
      reason := str "Song title is in Ukrainian", step := str "LANGUAGE",
      artistsToSearch := none }
  else
    let individual := effectiveArtists artistString
    let (blocked, safe, unknown) := partitionArtists artists individual
    if blocked ≠ [] then
      { shouldBlock := true, blockMode := some (str "STRICT"),
        reason :=
          if safe = [] ∧ unknown = [] then str "All artists are Russian"
          else str "Partial match (Force Dislike): " ++
               joinSep (str ", ") (blocked.map Artist.name) ++ str " (Russian)",
        step := str "ARTIST", artistsToSearch := none }
    else if unknown ≠ [] then
      { shouldBlock := false, blockMode := none,
        reason := str "Pending identification", step := str "PENDING_SEARCH",
        artistsToSearch := some unknown }
    else
      { shouldBlock := false, blockMode := none,
        reason := str "All artists are safe", step := str "ARTIST",
        artistsToSearch := none }

end Evaluator

/-! ## MistralAPI candidate selection (src/unnamed/part_004 lines 136–166) -/

/-- One element of a multi-candidate `analysis` array. A missing
`canonicalName` is the empty string (`item.canonicalName || ''`). -/
structure Candidate where
  canonicalName : Str
  country : Option Str
  isRussian : RVal
deriving DecidableEq

namespace MistralAPI

/-- Candidate disambiguation of `MistralAPI.searchArtist`: exact
(case-insensitive) name match, then `" - topic"` suffix match, then
starts-with match, then the first candidate. -/
def selectBestMatch (artistName : Str) (candidates : List Candidate) :
    Option Candidate :=
  let normalizedTarget := trimStr (toLowerStr artistName)
  match candidates.find? (fun i => toLowerStr i.canonicalName == normalizedTarget) with
  | some m => some m
  | none =>
    match candidates.find? (fun i =>
        toLowerStr i.canonicalName == normalizedTarget ++ str " - topic") with
    | some m => some m
    | none =>
      match candidates.find? (fun i =>
          startsWithStr (toLowerStr i.canonicalName) normalizedTarget) with
      | some m => some m
      | none => candidates.head?

end MistralAPI

/-! ## Resolution orchestration (src/unnamed/part_006 lines 177–268)

The promise chain following `YouTubeAPI.getArtistDetails` / \
`MistralAPI.searchArtist` is embedded as a function of the settled outcome
of that chain: fulfilled with an object or `null`, or rejected. The
function is total — a rejection is consumed by the `.catch`, never
re-thrown. -/

/-- The settled outcome of one external resolution attempt. -/
inductive ResolverOutcome
  | ok (r : Option SearchResult)
  | err (msg : Str)
deriving DecidableEq

/-- What an attempt writes to the search cache. -/
inductive CacheWrite
  | resolvedW (results : List SearchResult)
  | failedW (reason : Str)
deriving DecidableEq

/-- The externally visible effects of one resolution attempt: the cache
write, the artist-list mutation, and the re-evaluation decision handed to
the enforcement path (absent on failure). -/
structure AttemptEffect where
  cacheWrite : CacheWrite
  addedArtist : Option Artist
  reEvalDecision : Option EvalResult
deriving DecidableEq

/-- The `.then(result => ...)/.catch(error => ...)` continuation of the
SONG_CHANGED search orchestration. On success the cache is resolved, a new
artist record (with the query as alias) is upserted and the current song is
re-evaluated; otherwise the cache entry is failed and nothing else happens. -/
def resolveAttempt (songs : List Song) (artists : List Artist)
    (currentTitle currentArtist searchTitle artistToSearch freshId : Str)
    (now : Nat) (outcome : ResolverOutcome) : AttemptEffect :=
  match outcome with
  | ResolverOutcome.err msg =>
    { cacheWrite := CacheWrite.failedW msg, addedArtist := none,
      reEvalDecision := none }
  | ResolverOutcome.ok none =>
    { cacheWrite := CacheWrite.failedW (str "No results found"),
      addedArtist := none, reEvalDecision := none }
  | ResolverOutcome.ok (some result) =>
    if result.canonicalName = [] then
      { cacheWrite := CacheWrite.failedW (str "No results found"),
        addedArtist := none, reEvalDecision := none }
    else
      let newArtist : Artist :=
        { id := freshId, name := result.canonicalName,
          country := result.country, isRussian := result.isRussian,
          aliases := some [artistToSearch], lastPlayed := now }
      let artists' := StorageManager.addArtist newArtist artists
      let d := Evaluator.evaluateSong songs artists' currentTitle currentArtist
        (if currentTitle = searchTitle then result.isSongUkrainian else false)
      { cacheWrite := CacheWrite.resolvedW [result],
        addedArtist := some newArtist, reEvalDecision := some d }

/-! ## Auxiliary definitions used by the statements below -/

/-- The alias list of a record, empty when the field is absent. -/
def aliasesOf (a : Artist) : List Str := a.aliases.getD []

/-- A cache state in which `setPending` admits a retry for `q`: no entry,
a failed entry, a timed-out pending entry, or an expired resolved entry. -/
def retryState (now : Nat) (cache : Cache) (q : Str) : Prop :=
  cache q = none ∨
  ∃ e, cache q = some e ∧
    (e.state = CState.failed ∨
     (e.state = CState.pending ∧ now - e.timestamp > PENDING_TIMEOUT) ∨
     (e.state = CState.resolved ∧ now - e.timestamp > CACHE_TTL))

/-- The empty cache. -/
def emptyCache : Cache := fun _ => none

/-- A cache holding one live pending entry for the query `"a"`. -/
def liveCache : Cache :=
  updateEntry (str "a")
    { state := CState.pending, timestamp := 1000, data := none, error := none }
    emptyCache

/-- A knowledgebase artist classified as Russian by country code. -/
def artistZZ : Artist :=
  { id := str "a1", name := str "zz", country := some (str "RU"),
    isRussian := RVal.undef, aliases := none, lastPlayed := 0 }

/-- A knowledgebase artist that is known and safe. -/
def artistBB : Artist :=
  { id := str "a2", name := str "bb", country := some (str "UA"),
    isRussian := RVal.b false, aliases := none, lastPlayed := 0 }

/-- An artist record whose alias list holds exactly the (already
normalized) query `"artist - topic"`, as the orchestration writes after a
resolution. -/
def artistTopicRec : Artist :=
  { id := str "a3", name := str "Artist", country := none,
    isRussian := RVal.undef, aliases := some [str "artist - topic"],
    lastPlayed := 0 }

/-- First upsert argument for the alias-union witness. -/
def wrA : Artist :=
  { id := str "w1", name := str "Name", country := some (str "UA"),
    isRussian := RVal.b false, aliases := some [str "x"], lastPlayed := 7 }

/-- Second upsert argument: same canonical name up to normalization,
different alias list. -/
def wrB : Artist :=
  { id := str "w2", name := str "NAME", country := none,
    isRussian := RVal.undef, aliases := some [str "y", str "x"],
    lastPlayed := 9 }

/-- A candidate whose canonical name matches the witness query exactly. -/
def candW : Candidate :=
  { canonicalName := str "abc", country := none, isRussian := RVal.undef }

/-! ## Helper lemmas: substrings and joins -/

theorem startsWithStr_append (n r : Str) : startsWithStr (n ++ r) n = true := by
  induction n with
  | nil => simp [startsWithStr]
  | cons c cs ih => simp [startsWithStr, ih]

theorem startsWithStr_extend (hay n post : Str) (h : startsWithStr hay n = true) :
    startsWithStr (hay ++ post) n = true := by
  induction n generalizing hay with
  | nil => simp [startsWithStr]
  | cons p ps ih =>
    cases hay with
    | nil => simp [startsWithStr] at h
    | cons c cs =>
      simp only [startsWithStr, Bool.and_eq_true, decide_eq_true_eq] at h
      simp only [List.cons_append, startsWithStr, Bool.and_eq_true, decide_eq_true_eq]
      exact ⟨h.1, ih cs h.2⟩

theorem hasSub_of_starts (hay n : Str) (h : startsWithStr hay n = true) :
    hasSub hay n = true := by
  cases hay with
  | nil => exact h
  | cons c t => simp [hasSub, h]

theorem hasSub_append_left (pre hay n : Str) (h : hasSub hay n = true) :
    hasSub (pre ++ hay) n = true := by
  induction pre with
  | nil => simpa using h
  | cons c ps ih =>
    simp only [List.cons_append, hasSub, Bool.or_eq_true]
    exact Or.inr ih

theorem hasSub_append_right (hay post n : Str) (h : hasSub hay n = true) :
    hasSub (hay ++ post) n = true := by
  induction hay with
  | nil =>
    have hn : n = [] := by
      cases n with
      | nil => rfl
      | cons p ps => simp [hasSub, startsWithStr] at h
    subst hn
    cases post with
    | nil => simp [hasSub, startsWithStr]
    | cons c cs => simp [hasSub, startsWithStr]
  | cons c t ih =>
    simp only [hasSub, Bool.or_eq_true] at h
    simp only [List.cons_append, hasSub, Bool.or_eq_true]
    cases h with
    | inl hs => exact Or.inl (startsWithStr_extend _ _ _ hs)
    | inr ht => exact Or.inr (ih ht)

theorem hasSub_joinSep (sep : Str) (names : List Str) (n : Str) (h : n ∈ names) :
    hasSub (joinSep sep names) n = true := by
  induction names with
  | nil => simp at h
  | cons x xs ih =>
    cases xs with
    | nil =>
      simp only [List.mem_singleton] at h
      subst h
      exact hasSub_of_starts _ _ (by simpa using startsWithStr_append n [])
    | cons y ys =>
      rcases List.mem_cons.mp h with rfl | hmem
      · apply hasSub_of_starts
        simp only [joinSep, List.append_assoc]
        exact startsWithStr_append n (sep ++ joinSep sep (y :: ys))
      · simp only [joinSep]
        exact hasSub_append_left (x ++ sep) _ _ (ih hmem)

/-! ## Helper lemmas: alias folding -/

theorem pushFold_mem (new : List Str) : ∀ (curr : List Str) (al : Str),
    al ∈ new.foldl pushNew curr ↔ al ∈ curr ∨ al ∈ new := by
  induction new with
  | nil => simp
  | cons x xs ih =>
    intro curr al
    simp only [List.foldl_cons]
    rw [ih]
    unfold pushNew
    by_cases hx : x ∈ curr
    · rw [if_pos hx]
      have hxx : al = x → al ∈ curr := fun h => h ▸ hx
      simp only [List.mem_cons]
      tauto
    · rw [if_neg hx]
      simp only [List.mem_append, List.mem_singleton, List.mem_cons]
      tauto

theorem pushFold_of_subset (new : List Str) : ∀ (curr : List Str),
    (∀ x ∈ new, x ∈ curr) → new.foldl pushNew curr = curr := by
  induction new with
  | nil => intro curr _; rfl
  | cons x xs ih =>
    intro curr h
    simp only [List.foldl_cons]
    rw [show pushNew curr x = curr from if_pos (h x (List.mem_cons_self x xs))]
    exact ih curr (fun y hy => h y (List.mem_cons_of_mem x hy))

/-! ## Helper lemmas: the per-artist partition loop -/

theorem partition_blocked_mem (artists : List Artist) (l : List Str) :
    ∀ a ∈ (partitionArtists artists l).1,
      ∃ nm ∈ l, checkArtistMatch artists nm = some a ∧ artistFlagged a = true := by
  induction l with
  | nil => simp [partitionArtists]
  | cons n rest ih =>
    intro a ha
    rcases hp : partitionArtists artists rest with ⟨b, s, u⟩
    rw [hp] at ih
    simp only [partitionArtists, hp] at ha
    cases hm : checkArtistMatch artists n with
    | none =>
      rw [hm] at ha
      simp only at ha
      rcases ih a ha with ⟨nm, hnm, hfind, hflag⟩
      exact ⟨nm, List.mem_cons_of_mem n hnm, hfind, hflag⟩
    | some a0 =>
      rw [hm] at ha
      by_cases hf : artistFlagged a0 = true
      · simp only [hf, if_true] at ha
        rcases List.mem_cons.mp ha with rfl | hmem
        · exact ⟨n, List.mem_cons_self n rest, hm, hf⟩
        · rcases ih a hmem with ⟨nm, hnm, hfind, hflag⟩
          exact ⟨nm, List.mem_cons_of_mem n hnm, hfind, hflag⟩
      · simp only [hf, if_false, Bool.not_eq_true] at ha ⊢
        rw [if_neg (by simp [Bool.not_eq_true] at hf; simp [hf])] at ha
        rcases ih a ha with ⟨nm, hnm, hfind, hflag⟩
        exact ⟨nm, List.mem_cons_of_mem n hnm, hfind, hflag⟩

theorem partition_blocked_nil (artists : List Artist) (l : List Str)
    (h : ∀ nm ∈ l, ∀ a, checkArtistMatch artists nm = some a → artistFlagged a = false) :
    (partitionArtists artists l).1 = [] := by
  induction l with
  | nil => simp [partitionArtists]
  | cons n rest ih =>
    rcases hp : partitionArtists artists rest with ⟨b, s, u⟩
    have hb : b = [] := by
      have := ih (fun nm hnm a ha => h nm (List.mem_cons_of_mem n hnm) a ha)
      rw [hp] at this
      exact this
    simp only [partitionArtists, hp]
    cases hm : checkArtistMatch artists n with
    | none => simpa using hb
    | some a0 =>
      have hf : artistFlagged a0 = false := h n (List.mem_cons_self n rest) a0 hm
      simp only [hf]
      simpa using hb

theorem partition_unknown_eq (artists : List Artist) (l : List Str) :
    (partitionArtists artists l).2.2 =
      l.filter (fun nm => (checkArtistMatch artists nm).isNone) := by
  induction l with
  | nil => simp [partitionArtists]
  | cons n rest ih =>
    rcases hp : partitionArtists artists rest with ⟨b, s, u⟩
    rw [hp] at ih
    simp only [partitionArtists, hp]
    have ihu : u = List.filter (fun nm => (checkArtistMatch artists nm).isNone) rest := ih
    cases hm : checkArtistMatch artists n with
    | none => simp [List.filter, hm, ihu]
    | some a0 =>
      by_cases hf : artistFlagged a0 = true
      · simp [List.filter, hm, hf, ihu]
      · simp only [Bool.not_eq_true] at hf
        simp [List.filter, hm, hf, ihu]

/-! ## Helper lemmas: the search cache -/

theorem updateEntry_self (q : Str) (e : CacheEntry) (c : Cache) :
    updateEntry q e c q = some e := by
  simp [updateEntry]

theorem get_pending_young (now : Nat) (cache : Cache) (q : Str) (e : CacheEntry)
    (hq : ¬q = []) (he : cache q = some e) (hs : e.state = CState.pending)
    (ht : ¬now - e.timestamp > PENDING_TIMEOUT) :
    SearchCache.get now cache q = some e := by
  obtain ⟨st, ts, d, er⟩ := e
  simp only at hs ht
  subst hs
  unfold SearchCache.get
  rw [if_neg hq, he]
  simp [ht]

theorem get_pending_old (now : Nat) (cache : Cache) (q : Str) (e : CacheEntry)
    (hq : ¬q = []) (he : cache q = some e) (hs : e.state = CState.pending)
    (ht : now - e.timestamp > PENDING_TIMEOUT) :
    SearchCache.get now cache q =
      some { state := CState.failed, timestamp := e.timestamp, data := none,
             error := some (str "Search timed out") } := by
  obtain ⟨st, ts, d, er⟩ := e
  simp only at hs ht ⊢
  subst hs
  unfold SearchCache.get
  rw [if_neg hq, he]
  simp [ht]

theorem get_resolved_young (now : Nat) (cache : Cache) (q : Str) (e : CacheEntry)
    (hq : ¬q = []) (he : cache q = some e) (hs : e.state = CState.resolved)
    (ht : ¬now - e.timestamp > CACHE_TTL) :
    SearchCache.get now cache q = some e := by
  obtain ⟨st, ts, d, er⟩ := e
  simp only at hs ht
  subst hs
  unfold SearchCache.get
  rw [if_neg hq, he]
  simp [ht]

theorem get_resolved_old (now : Nat) (cache : Cache) (q : Str) (e : CacheEntry)
    (hq : ¬q = []) (he : cache q = some e) (hs : e.state = CState.resolved)
    (ht : now - e.timestamp > CACHE_TTL) :
    SearchCache.get now cache q = none := by
  obtain ⟨st, ts, d, er⟩ := e
  simp only at hs ht
  subst hs
  unfold SearchCache.get
  rw [if_neg hq, he]
  simp [ht]

theorem get_failed (now : Nat) (cache : Cache) (q : Str) (e : CacheEntry)
    (hq : ¬q = []) (he : cache q = some e) (hs : e.state = CState.failed) :
    SearchCache.get now cache q = some e := by
  obtain ⟨st, ts, d, er⟩ := e
  simp only at hs
  subst hs
  unfold SearchCache.get
  rw [if_neg hq, he]

theorem get_absent (now : Nat) (cache : Cache) (q : Str)
    (hq : ¬q = []) (he : cache q = none) :
    SearchCache.get now cache q = none := by
  unfold SearchCache.get
  rw [if_neg hq, he]

/-- Whenever `setPending` answers `true`, the cache it returns is the input
cache with a fresh pending entry at `q`. -/
theorem setPending_true_snd (now : Nat) (cache : Cache) (q : Str)
    (h : (SearchCache.setPending now cache q).1 = true) :
    (SearchCache.setPending now cache q).2 =
      updateEntry q
        { state := CState.pending, timestamp := now, data := none, error := none }
        cache := by
  unfold SearchCache.setPending at h ⊢
  by_cases hq : q = []
  · rw [if_pos hq] at h
    simp at h
  · rw [if_neg hq] at h ⊢
    cases hg : SearchCache.get now cache q with
    | none => rfl
    | some e =>
      rw [hg] at h
      dsimp only at h ⊢
      by_cases h1 : e.state = CState.resolved
      · rw [if_pos h1] at h; simp at h
      · rw [if_neg h1] at h ⊢
        by_cases h2 : e.state = CState.pending
        · rw [if_pos h2] at h; simp at h
        · rw [if_neg h2]

/-- `setPending` refuses and leaves the cache alone whenever `get` surfaces
a pending or resolved entry. -/
theorem setPending_false_of_get (now : Nat) (cache : Cache) (q : Str)
    (hq : ¬q = []) (e : CacheEntry) (hg : SearchCache.get now cache q = some e)
    (hs : e.state = CState.pending ∨ e.state = CState.resolved) :
    SearchCache.setPending now cache q = (false, cache) := by
  unfold SearchCache.setPending
  rw [if_neg hq, hg]
  dsimp only
  rcases hs with hs | hs
  · rw [if_neg (by simp [hs]), if_pos hs]
  · rw [if_pos hs]

/-- `setPending` writes a fresh pending entry whenever `get` surfaces
nothing or a failed entry. -/
theorem setPending_write_of_get (now : Nat) (cache : Cache) (q : Str)
    (hq : ¬q = [])
    (h : SearchCache.get now cache q = none ∨
         ∃ e, SearchCache.get now cache q = some e ∧ e.state = CState.failed) :
    SearchCache.setPending now cache q =
      (true, updateEntry q
        { state := CState.pending, timestamp := now, data := none, error := none }
        cache) := by
  unfold SearchCache.setPending
  rw [if_neg hq]
  rcases h with h | ⟨e, hg, hs⟩
  · rw [h]
  · rw [hg]
    dsimp only
    rw [if_neg (by simp [hs]), if_neg (by simp [hs])]

/-! ## Helper lemma: the evaluator past the song and language stages -/

theorem evaluateSong_artist_stage (songs : List Song) (artists : List Artist)
    (title artistString : Str) (knownUkr : Bool) (b s : List Artist) (u : List Str)
    (hv : ¬(title = [] ∨ artistString = []))
    (hsong : checkSongMatch songs artists title artistString = false)
    (hlang : (isUkrainianString title || knownUkr) = false)
    (hp : partitionArtists artists (effectiveArtists artistString) = (b, s, u)) :
    Evaluator.evaluateSong songs artists title artistString knownUkr =
      if b ≠ [] then
        { shouldBlock := true, blockMode := some (str "STRICT"),
          reason := if s = [] ∧ u = [] then str "All artists are Russian"
            else str "Partial match (Force Dislike): " ++
              joinSep (str ", ") (b.map Artist.name) ++ str " (Russian)",
          step := str "ARTIST", artistsToSearch := none }
      else if u ≠ [] then
        { shouldBlock := false, blockMode := none,
          reason := str "Pending identification", step := str "PENDING_SEARCH",
          artistsToSearch := some u }
      else
        { shouldBlock := false, blockMode := none,
          reason := str "All artists are safe", step := str "ARTIST",
          artistsToSearch := none } := by
  unfold Evaluator.evaluateSong
  rw [if_neg hv]
  rw [if_neg (show ¬(checkSongMatch songs artists title artistString = true) by
    simp [hsong])]
  rw [if_neg (show ¬((isUkrainianString title || knownUkr) = true) by
    simp [hlang])]
  dsimp only
  rw [hp]

/-! ## Claim theorems -/

/-- C1, counterexample: with a live pending entry already stored for `q`,
two successive `setPending` calls both return `false`, so "two successive
calls for the same q return true exactly once" fails as a universal
statement over cache states. -/
theorem setPending_exactly_once_counterexample :
    (SearchCache.setPending 1000 liveCache (str "a")).1 = false ∧
    (SearchCache.setPending 1000
      (SearchCache.setPending 1000 liveCache (str "a")).2 (str "a")).1 = false := by
  decide

/-- C1 (amended): for a nonempty query, `setPending` returns false and
leaves the cache unchanged exactly on a live pending or unexpired resolved
entry, and otherwise (no entry, failed, expired pending, expired resolved)
returns true and writes a fresh pending entry stamped now; two successive
calls within the pending timeout return true at most once, and exactly once
when the initial state admits a retry. -/
theorem setPending_spec (now now2 : Nat) (cache : Cache) (q : Str) (hq : q ≠ []) :
    (∀ e, cache q = some e → e.state = CState.pending →
      now - e.timestamp ≤ PENDING_TIMEOUT →
      SearchCache.setPending now cache q = (false, cache)) ∧
    (∀ e, cache q = some e → e.state = CState.resolved →
      now - e.timestamp ≤ CACHE_TTL →
      SearchCache.setPending now cache q = (false, cache)) ∧
    (retryState now cache q →
      SearchCache.setPending now cache q =
        (true, updateEntry q
          { state := CState.pending, timestamp := now, data := none, error := none }
          cache)) ∧
    (now2 - now ≤ PENDING_TIMEOUT →
      (SearchCache.setPending now cache q).1 = true →
      (SearchCache.setPending now2 (SearchCache.setPending now cache q).2 q).1 = false) ∧
    (retryState now cache q → now2 - now ≤ PENDING_TIMEOUT →
      (SearchCache.setPending now cache q).1 = true ∧
      (SearchCache.setPending now2 (SearchCache.setPending now cache q).2 q).1 = false) := by
  have hq' : ¬q = [] := hq
  have p1 : ∀ e, cache q = some e → e.state = CState.pending →
      now - e.timestamp ≤ PENDING_TIMEOUT →
      SearchCache.setPending now cache q = (false, cache) := by
    intro e he hs ht
    exact setPending_false_of_get now cache q hq' e
      (get_pending_young now cache q e hq' he hs (by omega)) (Or.inl hs)
  have p2 : ∀ e, cache q = some e → e.state = CState.resolved →
      now - e.timestamp ≤ CACHE_TTL →
      SearchCache.setPending now cache q = (false, cache) := by
    intro e he hs ht
    exact setPending_false_of_get now cache q hq' e
      (get_resolved_young now cache q e hq' he hs (by omega)) (Or.inr hs)
  have p3 : retryState now cache q →
      SearchCache.setPending now cache q =
        (true, updateEntry q
          { state := CState.pending, timestamp := now, data := none, error := none }
          cache) := by
    intro hr
    apply setPending_write_of_get now cache q hq'
    rcases hr with he | ⟨e, he, hs | ⟨hs, ht⟩ | ⟨hs, ht⟩⟩
    · exact Or.inl (get_absent now cache q hq' he)
    · exact Or.inr ⟨e, get_failed now cache q e hq' he hs, hs⟩
    · exact Or.inr ⟨_, get_pending_old now cache q e hq' he hs ht, rfl⟩
    · exact Or.inl (get_resolved_old now cache q e hq' he hs ht)
  have p4 : now2 - now ≤ PENDING_TIMEOUT →
      (SearchCache.setPending now cache q).1 = true →
      (SearchCache.setPending now2 (SearchCache.setPending now cache q).2 q).1 = false := by
    intro hle h1
    rw [setPending_true_snd now cache q h1]
    have hget : SearchCache.get now2
        (updateEntry q
          { state := CState.pending, timestamp := now, data := none, error := none }
          cache) q =
        some { state := CState.pending, timestamp := now, data := none, error := none } :=
      get_pending_young now2 _ q _ hq' (updateEntry_self q _ cache) rfl (by simp; omega)
    rw [setPending_false_of_get now2 _ q hq' _ hget (Or.inl rfl)]
  have p5 : retryState now cache q → now2 - now ≤ PENDING_TIMEOUT →
      (SearchCache.setPending now cache q).1 = true ∧
      (SearchCache.setPending now2 (SearchCache.setPending now cache q).2 q).1 = false := by
    intro hr hle
    have h1 : (SearchCache.setPending now cache q).1 = true := by rw [p3 hr]
    exact ⟨h1, p4 hle h1⟩
  exact ⟨p1, p2, p3, p4, p5⟩

/-- Witness for C1 (amended), on the empty cache: the first call returns
true, the immediately following call returns false. -/
theorem setPending_spec_witness :
    (SearchCache.setPending 5 emptyCache (str "a")).1 = true ∧
    (SearchCache.setPending 6 (SearchCache.setPending 5 emptyCache (str "a")).2
      (str "a")).1 = false := by
  have h := setPending_spec 5 6 emptyCache (str "a") (by decide)
  exact h.2.2.2.2 (Or.inl rfl) (by decide)

/-- C3: for a nonempty query holding an entry, `get` surfaces a timed-out
pending entry as an ephemeral failed view preserving the stored timestamp,
treats an expired resolved entry as absent, and returns young pending and
unexpired resolved entries as stored; moreover no cache write ever creates
an entry under the empty query, justifying the nonemptiness restriction. -/
theorem get_spec (now : Nat) (cache : Cache) (q : Str) (d : List SearchResult)
    (r : Str) (hq : q ≠ []) :
    (∀ e, cache q = some e → e.state = CState.pending →
      now - e.timestamp > PENDING_TIMEOUT →
      SearchCache.get now cache q =
        some { state := CState.failed, timestamp := e.timestamp, data := none,
               error := some (str "Search timed out") }) ∧
    (∀ e, cache q = some e → e.state = CState.pending →
      now - e.timestamp ≤ PENDING_TIMEOUT →
      SearchCache.get now cache q = some e) ∧
    (∀ e, cache q = some e → e.state = CState.resolved →
      now - e.timestamp > CACHE_TTL →
      SearchCache.get now cache q = none) ∧
    (∀ e, cache q = some e → e.state = CState.resolved →
      now - e.timestamp ≤ CACHE_TTL →
      SearchCache.get now cache q = some e) ∧
    (SearchCache.setPending now cache [] = (false, cache) ∧
     SearchCache.setResolved now cache [] d = cache ∧
     SearchCache.setFailed now cache [] r = cache) := by
  have hq' : ¬q = [] := hq
  refine ⟨?_, ?_, ?_, ?_, ?_, ?_, ?_⟩
  · intro e he hs ht
    exact get_pending_old now cache q e hq' he hs ht
  · intro e he hs ht
    exact get_pending_young now cache q e hq' he hs (by omega)
  · intro e he hs ht
    exact get_resolved_old now cache q e hq' he hs ht
  · intro e he hs ht
    exact get_resolved_young now cache q e hq' he hs (by omega)
  · unfold SearchCache.setPending
    rw [if_pos rfl]
  · unfold SearchCache.setResolved
    rw [if_pos rfl]
  · unfold SearchCache.setFailed
    rw [if_pos rfl]

/-- Witness for C3: a pending entry stamped 1000 read at 61001 surfaces as
the ephemeral failed view with the stored timestamp. -/
theorem get_spec_witness :
    SearchCache.get 61001 liveCache (str "a") =
      some { state := CState.failed, timestamp := 1000, data := none,
             error := some (str "Search timed out") } := by
  have h := get_spec 61001 liveCache (str "a") [] [] (by decide)
  exact h.1 { state := CState.pending, timestamp := 1000, data := none, error := none }
    (by decide) rfl (by decide)

/-- C2, counterexample: when every split artist is flagged (here the single
artist "zz", flagged via country RU), the blocking decision's reason is the
fixed string "All artists are Russian", which does not name the flagged
artist — so "the reason names the flagged artists" fails in the
total-overlap case. -/
theorem evaluateSong_reason_counterexample :
    (Evaluator.evaluateSong [] [artistZZ] (str "tt") (str "zz") false).shouldBlock
      = true ∧
    (Evaluator.evaluateSong [] [artistZZ] (str "tt") (str "zz") false).step
      = str "ARTIST" ∧
    checkArtistMatch [artistZZ] (str "zz") = some artistZZ ∧
    artistFlagged artistZZ = true ∧
    hasSub (Evaluator.evaluateSong [] [artistZZ] (str "tt") (str "zz") false).reason
      artistZZ.name = false := by
  decide

/-- C2 (amended): past the validation, song-override and language stages,
a nonempty flagged partition yields a blocking decision with mode STRICT and
step ARTIST; the reason names every flagged artist's canonical name when at
least one further artist is safe or unknown, and is the fixed string
"All artists are Russian" when all artists are flagged. -/
theorem evaluateSong_flagged_strict (songs : List Song) (artists : List Artist)
    (title artistString : Str) (knownUkr : Bool) (b s : List Artist) (u : List Str)
    (hv : ¬(title = [] ∨ artistString = []))
    (hsong : checkSongMatch songs artists title artistString = false)
    (hlang : (isUkrainianString title || knownUkr) = false)
    (hp : partitionArtists artists (effectiveArtists artistString) = (b, s, u))
    (hb : b ≠ []) :
    (Evaluator.evaluateSong songs artists title artistString knownUkr).shouldBlock
      = true ∧
    (Evaluator.evaluateSong songs artists title artistString knownUkr).blockMode
      = some (str "STRICT") ∧
    (Evaluator.evaluateSong songs artists title artistString knownUkr).step
      = str "ARTIST" ∧
    ((s ≠ [] ∨ u ≠ []) → ∀ a ∈ b,
      hasSub (Evaluator.evaluateSong songs artists title artistString knownUkr).reason
        a.name = true) ∧
    (s = [] → u = [] →
      (Evaluator.evaluateSong songs artists title artistString knownUkr).reason
        = str "All artists are Russian") := by
  rw [evaluateSong_artist_stage songs artists title artistString knownUkr b s u
    hv hsong hlang hp]
  rw [if_pos hb]
  refine ⟨rfl, rfl, rfl, ?_, ?_⟩
  · intro hsu a ha
    dsimp only
    rw [if_neg (show ¬(s = [] ∧ u = []) by tauto)]
    apply hasSub_append_right
    apply hasSub_append_left
    exact hasSub_joinSep _ _ _ (List.mem_map_of_mem Artist.name ha)
  · intro hs hu
    dsimp only
    rw [if_pos ⟨hs, hu⟩]

/-- Witness for C2 (amended): "zz & bb" with "zz" flagged and "bb" safe is
blocked strictly at the artist stage, and the reason names "zz". -/
theorem evaluateSong_flagged_strict_witness :
    (Evaluator.evaluateSong [] [artistZZ, artistBB] (str "tt") (str "zz & bb")
      false).shouldBlock = true ∧
    (Evaluator.evaluateSong [] [artistZZ, artistBB] (str "tt") (str "zz & bb")
      false).blockMode = some (str "STRICT") ∧
    (Evaluator.evaluateSong [] [artistZZ, artistBB] (str "tt") (str "zz & bb")
      false).step = str "ARTIST" ∧
    hasSub (Evaluator.evaluateSong [] [artistZZ, artistBB] (str "tt")
      (str "zz & bb") false).reason artistZZ.name = true := by
  have h := evaluateSong_flagged_strict [] [artistZZ, artistBB] (str "tt")
    (str "zz & bb") false [artistZZ] [artistBB] []
    (by decide) (by decide) (by decide) (by decide) (by decide)
  exact ⟨h.1, h.2.1, h.2.2.1,
    h.2.2.2.1 (Or.inl (by decide)) artistZZ (List.mem_cons_self artistZZ [])⟩

/-- C4: the artist lookup consults only the canonical name: a record whose
alias list contains exactly the (already normalized) query is not found,
even though the same record is found under its canonical name — the alias
the orchestration writes "to ensure future matches" is never matched. -/
theorem checkArtistMatch_ignores_aliases :
    checkArtistMatch [artistTopicRec] (str "artist - topic") = none ∧
    artistTopicRec.aliases = some [str "artist - topic"] ∧
    normalizeArtist (str "artist - topic") = str "artist - topic" ∧
    checkArtistMatch [artistTopicRec] (str "Artist") = some artistTopicRec := by
  decide

/-- C5: past the validation, song-override and language stages, when no
consulted artist is flagged and at least one is unknown, the decision is
non-blocking with step PENDING_SEARCH and its search list is exactly the
unknown (knowledgebase-miss) names of the normalized split, in order. -/
theorem evaluateSong_pending_search (songs : List Song) (artists : List Artist)
    (title artistString : Str) (knownUkr : Bool)
    (hv : ¬(title = [] ∨ artistString = []))
    (hsong : checkSongMatch songs artists title artistString = false)
    (hlang : (isUkrainianString title || knownUkr) = false)
    (hnoflag : ∀ nm ∈ effectiveArtists artistString, ∀ a,
      checkArtistMatch artists nm = some a → artistFlagged a = false)
    (hunk : ∃ nm ∈ effectiveArtists artistString, checkArtistMatch artists nm = none) :
    Evaluator.evaluateSong songs artists title artistString knownUkr =
      { shouldBlock := false, blockMode := none,
        reason := str "Pending identification", step := str "PENDING_SEARCH",
        artistsToSearch := some ((effectiveArtists artistString).filter
          (fun nm => (checkArtistMatch artists nm).isNone)) } := by
  rcases hp : partitionArtists artists (effectiveArtists artistString) with ⟨b, s, u⟩
  have hb : b = [] := by
    have hbn := partition_blocked_nil artists (effectiveArtists artistString) hnoflag
    rw [hp] at hbn
    exact hbn
  have hu : u = (effectiveArtists artistString).filter
      (fun nm => (checkArtistMatch artists nm).isNone) := by
    have hue := partition_unknown_eq artists (effectiveArtists artistString)
    rw [hp] at hue
    exact hue
  have hune : u ≠ [] := by
    rcases hunk with ⟨nm, hnm, hnone⟩
    rw [hu]
    intro hnil
    have hmem : nm ∈ (effectiveArtists artistString).filter
        (fun nm => (checkArtistMatch artists nm).isNone) :=
      List.mem_filter.mpr ⟨hnm, by simp [hnone]⟩
    rw [hnil] at hmem
    simp at hmem
  rw [evaluateSong_artist_stage songs artists title artistString knownUkr b s u
    hv hsong hlang hp]
  rw [if_neg (show ¬b ≠ [] by simp [hb]), if_pos hune, hu]

/-- Witness for C5: an unknown single artist yields a pending search for
exactly its normalized name, here "new artist". -/
theorem evaluateSong_pending_search_witness :
    Evaluator.evaluateSong [] [] (str "tt") (str "New Artist") false =
      { shouldBlock := false, blockMode := none,
        reason := str "Pending identification", step := str "PENDING_SEARCH",
        artistsToSearch := some [str "new artist"] } := by
  have h := evaluateSong_pending_search [] [] (str "tt") (str "New Artist") false
    (by decide) (by decide) (by decide)
    (by intro nm hnm a ha; simp [checkArtistMatch] at ha)
    ⟨str "new artist", by decide, by decide⟩
  exact h.trans (by decide)

/-- Inserting a record whose normalized name matches nothing appends it. -/
theorem addArtist_append (r : Artist) (artists : List Artist)
    (h : ∀ a ∈ artists, normalizeArtist a.name ≠ normalizeArtist r.name) :
    StorageManager.addArtist r artists = artists ++ [r] := by
  induction artists with
  | nil => rfl
  | cons a rest ih =>
    unfold StorageManager.addArtist
    rw [if_neg (h a (List.mem_cons_self a rest))]
    rw [ih (fun x hx => h x (List.mem_cons_of_mem a hx))]
    rfl

/-- Upserting over a list whose only normalized-name match is a final
record merges into that record in place. -/
theorem addArtist_merge_at_end (r1 r2 : Artist) (artists : List Artist)
    (h : ∀ a ∈ artists, normalizeArtist a.name ≠ normalizeArtist r2.name)
    (hname : normalizeArtist r1.name = normalizeArtist r2.name) :
    StorageManager.addArtist r2 (artists ++ [r1]) =
      artists ++ [mergeAliases r1 r2] := by
  induction artists with
  | nil =>
    show StorageManager.addArtist r2 [r1] = [mergeAliases r1 r2]
    unfold StorageManager.addArtist
    rw [if_pos hname]
  | cons a rest ih =>
    show StorageManager.addArtist r2 (a :: (rest ++ [r1])) =
      a :: (rest ++ [mergeAliases r1 r2])
    unfold StorageManager.addArtist
    rw [if_neg (h a (List.mem_cons_self a rest))]
    rw [ih (fun x hx => h x (List.mem_cons_of_mem a hx))]

/-- The merge never touches fields other than `aliases`. -/
theorem mergeAliases_fields (r1 r2 : Artist) :
    (mergeAliases r1 r2).id = r1.id ∧ (mergeAliases r1 r2).name = r1.name ∧
    (mergeAliases r1 r2).country = r1.country ∧
    (mergeAliases r1 r2).isRussian = r1.isRussian ∧
    (mergeAliases r1 r2).lastPlayed = r1.lastPlayed := by
  unfold mergeAliases
  cases r2.aliases with
  | none => exact ⟨rfl, rfl, rfl, rfl, rfl⟩
  | some newAl =>
    dsimp only
    by_cases h : newAl.foldl pushNew (r1.aliases.getD []) = r1.aliases.getD []
    · rw [if_pos h]
      exact ⟨rfl, rfl, rfl, rfl, rfl⟩
    · rw [if_neg h]
      exact ⟨rfl, rfl, rfl, rfl, rfl⟩

/-- The merged alias set is the union of the two alias sets. -/
theorem mergeAliases_mem (r1 r2 : Artist) (A2 : List Str)
    (hA2 : r2.aliases = some A2) (al : Str) :
    al ∈ aliasesOf (mergeAliases r1 r2) ↔ al ∈ aliasesOf r1 ∨ al ∈ A2 := by
  unfold mergeAliases
  rw [hA2]
  dsimp only
  by_cases h : A2.foldl pushNew (r1.aliases.getD []) = r1.aliases.getD []
  · rw [if_pos h]
    have hiff := pushFold_mem A2 (r1.aliases.getD []) al
    rw [h] at hiff
    exact hiff
  · rw [if_neg h]
    exact pushFold_mem A2 (r1.aliases.getD []) al

/-- Merging aliases that are all already present is a no-op. -/
theorem mergeAliases_noop (r1 r2 : Artist) (A2 : List Str)
    (hA2 : r2.aliases = some A2) (h : ∀ al ∈ A2, al ∈ aliasesOf r1) :
    mergeAliases r1 r2 = r1 := by
  unfold mergeAliases
  rw [hA2]
  dsimp only
  rw [if_pos (pushFold_of_subset A2 (r1.aliases.getD []) h)]

/-- C6: two upserts with the same normalized canonical name, into a state
with no record of that name, leave exactly one record, appended at the end;
its alias set is the union of both calls' aliases, its other fields are
those of the first record, and a second call whose aliases are all already
present changes nothing. -/
theorem addArtist_upsert_spec (artists : List Artist) (r1 r2 : Artist)
    (A2 : List Str)
    (hname : normalizeArtist r2.name = normalizeArtist r1.name)
    (hnew : ∀ a ∈ artists, normalizeArtist a.name ≠ normalizeArtist r1.name)
    (hA2 : r2.aliases = some A2) :
    StorageManager.addArtist r1 artists = artists ++ [r1] ∧
    StorageManager.addArtist r2 (StorageManager.addArtist r1 artists) =
      artists ++ [mergeAliases r1 r2] ∧
    (mergeAliases r1 r2).id = r1.id ∧
    (mergeAliases r1 r2).name = r1.name ∧
    (mergeAliases r1 r2).country = r1.country ∧
    (mergeAliases r1 r2).isRussian = r1.isRussian ∧
    (mergeAliases r1 r2).lastPlayed = r1.lastPlayed ∧
    (∀ al, al ∈ aliasesOf (mergeAliases r1 r2) ↔ al ∈ aliasesOf r1 ∨ al ∈ A2) ∧
    ((∀ al ∈ A2, al ∈ aliasesOf r1) →
      StorageManager.addArtist r2 (StorageManager.addArtist r1 artists) =
        StorageManager.addArtist r1 artists) := by
  have hins : StorageManager.addArtist r1 artists = artists ++ [r1] :=
    addArtist_append r1 artists hnew
  have hnew2 : ∀ a ∈ artists, normalizeArtist a.name ≠ normalizeArtist r2.name := by
    intro a ha
    rw [hname]
    exact hnew a ha
  have hmerge : StorageManager.addArtist r2 (StorageManager.addArtist r1 artists) =
      artists ++ [mergeAliases r1 r2] := by
    rw [hins]
    exact addArtist_merge_at_end r1 r2 artists hnew2 hname.symm
  have hf := mergeAliases_fields r1 r2
  refine ⟨hins, hmerge, hf.1, hf.2.1, hf.2.2.1, hf.2.2.2.1, hf.2.2.2.2,
    fun al => mergeAliases_mem r1 r2 A2 hA2 al, ?_⟩
  intro hsub
  rw [hmerge, hins, mergeAliases_noop r1 r2 A2 hA2 hsub]

/-- Witness for C6: upserting `wrA` (aliases `["x"]`) then `wrB` (same
normalized name, aliases `["y", "x"]`) into the empty knowledgebase leaves
one record whose alias list is `["x", "y"]`. -/
theorem addArtist_upsert_spec_witness :
    StorageManager.addArtist wrB (StorageManager.addArtist wrA []) =
      [] ++ [mergeAliases wrA wrB] ∧
    aliasesOf (mergeAliases wrA wrB) = [str "x", str "y"] := by
  have h := addArtist_upsert_spec [] wrA wrB [str "y", str "x"]
    (by decide) (by simp) rfl
  exact ⟨h.2.1, by decide⟩

/-- C7, counterexample: `" & b"` and `"& b"` differ only in one leading
space (identical after whitespace collapsing and trimming, identical in
case), yet normalize differently — the leading space enables the
`\s+(&|and)\s+` conjunction rule, giving `"b"` against `"& b"`. -/
theorem normalizeArtist_invariance_counterexample :
    squeezeTrim (str " & b") = squeezeTrim (str "& b") ∧
    toLowerStr (str " & b") = str " & b" ∧
    toLowerStr (str "& b") = str "& b" ∧
    normalizeArtist (str " & b") ≠ normalizeArtist (str "& b") := by
  decide

/-- C7 (amended): artist strings that differ only in letter case normalize
to the same canonical string (the pipeline lowercases first and is
otherwise case-blind); invariance under whitespace and feat-clause variants
does not hold universally. -/
theorem normalizeArtist_case_invariant (s t : Str)
    (h : toLowerStr s = toLowerStr t) :
    normalizeArtist s = normalizeArtist t := by
  unfold normalizeArtist
  rw [h]

/-- Witness for C7 (amended): two case variants of the same name. -/
theorem normalizeArtist_case_invariant_witness :
    toLowerStr (str "DJ Smash") = toLowerStr (str "dj SMASH") ∧
    normalizeArtist (str "DJ Smash") = normalizeArtist (str "dj SMASH") :=
  ⟨by decide,
   normalizeArtist_case_invariant (str "DJ Smash") (str "dj SMASH") (by decide)⟩

/-- C8: a rejected resolution, a null result, and a result without a
canonical name all end the attempt with a failed cache write carrying the
reason, no knowledgebase mutation and no re-evaluation decision; the
embedding is a total function, so no outcome escapes as fatal. -/
theorem resolveAttempt_failure_spec (songs : List Song) (artists : List Artist)
    (ct ca st ats fid : Str) (now : Nat) (outcome : ResolverOutcome) :
    (∀ msg, outcome = ResolverOutcome.err msg →
      resolveAttempt songs artists ct ca st ats fid now outcome =
        { cacheWrite := CacheWrite.failedW msg, addedArtist := none,
          reEvalDecision := none }) ∧
    (outcome = ResolverOutcome.ok none →
      resolveAttempt songs artists ct ca st ats fid now outcome =
        { cacheWrite := CacheWrite.failedW (str "No results found"),
          addedArtist := none, reEvalDecision := none }) ∧
    (∀ r, outcome = ResolverOutcome.ok (some r) → r.canonicalName = [] →
      resolveAttempt songs artists ct ca st ats fid now outcome =
        { cacheWrite := CacheWrite.failedW (str "No results found"),
          addedArtist := none, reEvalDecision := none }) := by
  refine ⟨?_, ?_, ?_⟩
  · intro msg h
    subst h
    rfl
  · intro h
    subst h
    rfl
  · intro r h hr
    subst h
    unfold resolveAttempt
    dsimp only
    rw [if_pos hr]

/-- Witness for C8: a rejected attempt records only the failed entry. -/
theorem resolveAttempt_failure_spec_witness :
    resolveAttempt [] [] (str "t") (str "a") (str "t") (str "a") (str "id") 5
      (ResolverOutcome.err (str "boom")) =
      { cacheWrite := CacheWrite.failedW (str "boom"), addedArtist := none,
        reEvalDecision := none } :=
  (resolveAttempt_failure_spec [] [] (str "t") (str "a") (str "t") (str "a")
    (str "id") 5 (ResolverOutcome.err (str "boom"))).1 (str "boom") rfl

/-- C9: for a nonempty candidate list, selection follows the priority
exact case-insensitive match, then `" - topic"` suffix match, then
starts-with match, then the first candidate; the result is always drawn
from the list. -/
theorem selectBestMatch_spec (artistName : Str) (cands : List Candidate)
    (hne : cands ≠ []) :
    (∀ c, cands.find? (fun i =>
        toLowerStr i.canonicalName == trimStr (toLowerStr artistName)) = some c →
      MistralAPI.selectBestMatch artistName cands = some c) ∧
    (cands.find? (fun i =>
        toLowerStr i.canonicalName == trimStr (toLowerStr artistName)) = none →
      ∀ c, cands.find? (fun i =>
        toLowerStr i.canonicalName ==
          trimStr (toLowerStr artistName) ++ str " - topic") = some c →
      MistralAPI.selectBestMatch artistName cands = some c) ∧
    (cands.find? (fun i =>
        toLowerStr i.canonicalName == trimStr (toLowerStr artistName)) = none →
      cands.find? (fun i =>
        toLowerStr i.canonicalName ==
          trimStr (toLowerStr artistName) ++ str " - topic") = none →
      ∀ c, cands.find? (fun i =>
        startsWithStr (toLowerStr i.canonicalName)
          (trimStr (toLowerStr artistName))) = some c →
      MistralAPI.selectBestMatch artistName cands = some c) ∧
    (cands.find? (fun i =>
        toLowerStr i.canonicalName == trimStr (toLowerStr artistName)) = none →
      cands.find? (fun i =>
        toLowerStr i.canonicalName ==
          trimStr (toLowerStr artistName) ++ str " - topic") = none →
      cands.find? (fun i =>
        startsWithStr (toLowerStr i.canonicalName)
          (trimStr (toLowerStr artistName))) = none →
      MistralAPI.selectBestMatch artistName cands = cands.head?) ∧
    (∀ c, MistralAPI.selectBestMatch artistName cands = some c → c ∈ cands) := by
  unfold MistralAPI.selectBestMatch
  dsimp only
  refine ⟨?_, ?_, ?_, ?_, ?_⟩
  · intro c h
    rw [h]
  · intro h1 c h
    rw [h1, h]
  · intro h1 h2 c h
    rw [h1, h2, h]
  · intro h1 h2 h3
    rw [h1, h2, h3]
  · intro c h
    cases hf1 : cands.find? (fun i =>
        toLowerStr i.canonicalName == trimStr (toLowerStr artistName)) with
    | some c1 =>
      rw [hf1] at h
      cases h
      exact List.mem_of_find?_eq_some hf1
    | none =>
      rw [hf1] at h
      cases hf2 : cands.find? (fun i =>
          toLowerStr i.canonicalName ==
            trimStr (toLowerStr artistName) ++ str " - topic") with
      | some c2 =>
        rw [hf2] at h
        cases h
        exact List.mem_of_find?_eq_some hf2
      | none =>
        rw [hf2] at h
        cases hf3 : cands.find? (fun i =>
            startsWithStr (toLowerStr i.canonicalName)
              (trimStr (toLowerStr artistName))) with
        | some c3 =>
          rw [hf3] at h
          cases h
          exact List.mem_of_find?_eq_some hf3
        | none =>
          rw [hf3] at h
          have hc : cands = c :: cands.tail :=
            List.eq_cons_of_mem_head? (Option.mem_def.mpr h)
          rw [hc]
          exact List.mem_cons_self c cands.tail

/-- Witness for C9: an exact (case-insensitive) match is selected. -/
theorem selectBestMatch_spec_witness :
    MistralAPI.selectBestMatch (str "Abc") [candW] = some candW := by
  have h := selectBestMatch_spec (str "Abc") [candW] (by simp)
  exact h.1 candW (by decide)

/-- C10: whenever `evaluateSong` blocks, the decision carries step ARTIST
and mode STRICT, and some consulted artist name matched a flagged
knowledgebase record — the validation, song, language, pending-search and
all-safe paths never block. -/
theorem evaluateSong_block_invariant (songs : List Song) (artists : List Artist)
    (title artistString : Str) (knownUkr : Bool)
    (h : (Evaluator.evaluateSong songs artists title artistString
      knownUkr).shouldBlock = true) :
    (Evaluator.evaluateSong songs artists title artistString knownUkr).step
      = str "ARTIST" ∧
    (Evaluator.evaluateSong songs artists title artistString knownUkr).blockMode
      = some (str "STRICT") ∧
    ∃ nm ∈ effectiveArtists artistString, ∃ a,
      checkArtistMatch artists nm = some a ∧ artistFlagged a = true := by
  by_cases hv : title = [] ∨ artistString = []
  · unfold Evaluator.evaluateSong at h
    rw [if_pos hv] at h
    simp at h
  · by_cases hsong : checkSongMatch songs artists title artistString = true
    · unfold Evaluator.evaluateSong at h
      rw [if_neg hv, if_pos hsong] at h
      simp at h
    · have hsong' : checkSongMatch songs artists title artistString = false :=
        Bool.eq_false_iff.mpr hsong
      by_cases hlang : (isUkrainianString title || knownUkr) = true
      · unfold Evaluator.evaluateSong at h
        rw [if_neg hv,
          if_neg (show ¬(checkSongMatch songs artists title artistString = true) by
            simp [hsong']),
          if_pos hlang] at h
        simp at h
      · have hlang' : (isUkrainianString title || knownUkr) = false :=
          Bool.eq_false_iff.mpr hlang
        rcases hp : partitionArtists artists (effectiveArtists artistString)
          with ⟨b, s, u⟩
        have hst := evaluateSong_artist_stage songs artists title artistString
          knownUkr b s u hv hsong' hlang' hp
        rw [hst] at h ⊢
        by_cases hb : b ≠ []
        · rw [if_pos hb] at h ⊢
          refine ⟨rfl, rfl, ?_⟩
          cases hbc : b with
          | nil => exact absurd hbc hb
          | cons a bs =>
            have hmem := partition_blocked_mem artists
              (effectiveArtists artistString) a
              (by rw [hp, hbc]; exact List.mem_cons_self a bs)
            rcases hmem with ⟨nm, hnm, hfind, hflag⟩
            exact ⟨nm, hnm, a, hfind, hflag⟩
        · rw [if_neg hb] at h
          by_cases hu : u ≠ []
          · rw [if_pos hu] at h
            simp at h
          · rw [if_neg hu] at h
            simp at h

/-- Witness for C10: a blocked song indeed reports step ARTIST, mode
STRICT. -/
theorem evaluateSong_block_invariant_witness :
    (Evaluator.evaluateSong [] [artistZZ] (str "uu") (str "zz") false).step
      = str "ARTIST" ∧
    (Evaluator.evaluateSong [] [artistZZ] (str "uu") (str "zz") false).blockMode
      = some (str "STRICT") := by
  have h := evaluateSong_block_invariant [] [artistZZ] (str "uu") (str "zz")
    false (by decide)
  exact ⟨h.1, h.2.1⟩
